import Mathlib

/-!
Verification of the rustix event/io/fs backend against its specification.

The definitions below are a shallow embedding of the Rust source:
machine integers become `Nat`/`Int` with explicit width bounds, fallible
code returns `Except`/`Option`, and each raw OS call is represented by an
oracle function passed as a parameter, so that theorems can quantify over
every possible OS behaviour. Where a function records which arguments it
handed to the OS, the embedding returns those arguments alongside the
result, so that claims about "no call is issued" or "the length is passed
untruncated" are directly expressible.
-/

namespace Rustix

/-- Error code type (`io::Errno`): wraps the OS integer failure code. -/
structure Errno where
  code : Nat
deriving DecidableEq

/-- Code `EINVAL` (invalid argument), value 22 on Linux. -/
def Errno.INVAL : Errno := ⟨22⟩

/-- Code `ERANGE` (result too large / buffer too small), value 34 on Linux. -/
def Errno.ERANGE : Errno := ⟨34⟩

/-- Code `EOVERFLOW`, value 75 on Linux; synthesized locally by `kevent`
when a slice length does not fit the native width. -/
def Errno.OVERFLOW : Errno := ⟨75⟩

/-- Owned file descriptor: exclusive owner of one raw descriptor. -/
structure OwnedFd where
  rawFd : Int
deriving DecidableEq

/-- Modelled from the spec: the Outcome Translation Layer
(`src/backend/conv.rs` is not included under `src/`). Per the spec,
"for every negative raw input, the result is an error whose code equals
the encoded magnitude of the input; for every non-negative raw input, the
result is success carrying that value reinterpreted at the target width".
This is the shared core of the `ret` family. -/
def rawTranslate (raw : Int) : Except Errno Int :=
  if raw < 0 then .error ⟨(-raw).toNat⟩ else .ok raw

/-- Modelled from the spec: `ret` — translate-to-no-value. -/
def ret (raw : Int) : Except Errno Unit :=
  (rawTranslate raw).map fun _ => ()

/-- Modelled from the spec: `ret_c_int` — translate-to-signed-count. -/
def ret_c_int (raw : Int) : Except Errno Int :=
  rawTranslate raw

/-- Modelled from the spec: `ret_usize` — translate-to-unsigned-count;
a non-negative value is reinterpreted at the unsigned target width. -/
def ret_usize (raw : Int) : Except Errno Nat :=
  (rawTranslate raw).map Int.toNat

/-- Modelled from the spec: `ret_owned_fd` — translate-to-owned-handle,
wrapping the returned identifier in an `OwnedFd`. -/
def ret_owned_fd (raw : Int) : Except Errno OwnedFd :=
  (rawTranslate raw).map OwnedFd.mk

/-- Decidable equality for `Except`, so that outcome records can be
compared by `decide` in concrete evaluations. -/
instance exceptDecEq {ε α : Type} [DecidableEq ε] [DecidableEq α] :
    DecidableEq (Except ε α) := fun a b =>
  match a, b with
  | .ok x, .ok y =>
    if h : x = y then isTrue (by rw [h]) else isFalse (fun hc => h (Except.ok.inj hc))
  | .ok _, .error _ => isFalse (fun hc => Except.noConfusion hc)
  | .error _, .ok _ => isFalse (fun hc => Except.noConfusion hc)
  | .error e, .error f =>
    if h : e = f then isTrue (by rw [h]) else isFalse (fun hc => h (Except.error.inj hc))

/-- Largest value representable in the C `int` type (32-bit signed):
the bound checked by the `try_into` conversions in `poll` and `kevent`. -/
def cIntMax : Nat := 2 ^ 31 - 1

/-- Outcome of a wrapper around one optional OS call: the translated
result, plus the argument tuple actually passed to the OS (`none` when
the wrapper returned before issuing the call). -/
structure PollOutcome where
  result : Except Errno Nat
  osNfds : Option Nat
deriving DecidableEq

/-- Embedding of `poll` (src/backend/libc/event/syscalls.rs lines 67-75):
convert the slice length to a C `int`, mapping conversion failure to
`Errno::INVAL`; otherwise issue the OS call and translate via
`ret_c_int`, casting the ready count back to `usize`. The OS oracle
takes the nfds and timeout arguments and yields the raw return. -/
def poll (nfds : Nat) (timeout : Int) (os : Nat → Int → Int) : PollOutcome :=
  if nfds ≤ cIntMax then
    { result := (ret_c_int (os nfds timeout)).map Int.toNat
      osNfds := some nfds }
  else
    { result := .error Errno.INVAL, osNfds := none }

/-- Outcome of the `kevent` wrapper: translated result plus the
(nchanges, nevents) pair passed to the OS, `none` if no call was made. -/
structure KeventOutcome where
  result : Except Errno Int
  osLens : Option (Nat × Nat)
deriving DecidableEq

/-- Embedding of `kevent` (src/backend/libc/event/syscalls.rs lines
44-64): each of the two slice lengths is converted to a C `int` with
conversion failure mapped to `Errno::OVERFLOW` before the OS call is
issued; the raw return is translated via `ret_c_int`. -/
def kevent (nchanges nevents : Nat) (os : Nat → Nat → Int) : KeventOutcome :=
  if nchanges ≤ cIntMax then
    if nevents ≤ cIntMax then
      { result := ret_c_int (os nchanges nevents)
        osLens := some (nchanges, nevents) }
    else
      { result := .error Errno.OVERFLOW, osLens := none }
  else
    { result := .error Errno.OVERFLOW, osLens := none }

/-- One symbolic byte of a symlink target. -/
abbrev Byte := Nat

/-- Embedding of the retry loop of `_readlinkat` (src/fs/at.rs lines
85-117), fuel-indexed for totality (the fuel is strictly more than the
loop ever needs; `none` marks exhausted fuel and is proved unreachable).
The OS `readlinkat` call with a buffer of `cap` spare bytes writes the
first `min tgt.length cap` target bytes and reports that count, per the
readlink contract (silent truncation at the buffer size). If the
reported count is strictly less than the capacity the loop sets the
buffer length to the count and returns its contents; otherwise it grows
the capacity exponentially (doubling, the `Vec` reallocation strategy
invoked by `buffer.reserve(buffer.capacity() + 1)`) and retries.
Returns (number of capacity-growth retries, returned bytes). -/
def readlinkatAux (tgt : List Byte) : Nat → Nat → Option (Nat × List Byte)
  | 0, _ => none
  | fuel + 1, cap =>
    if min tgt.length cap < cap then
      some (0, (tgt.take cap).take (min tgt.length cap))
    else
      (readlinkatAux tgt fuel (2 * cap)).map fun p => (p.1 + 1, p.2)

/-- Embedding of `_readlinkat` entered with an initial buffer capacity
`C` (the source guarantees `C ≥ SMALL_PATH_BUFFER_SIZE` via `reserve`;
the capacity is a parameter here). -/
def readlinkat (tgt : List Byte) (C : Nat) : Option (Nat × List Byte) :=
  readlinkatAux tgt (tgt.length + 1) C

/-- Embedding of the retry loop of `ptsname` (src/backend/libc/pty/
syscalls.rs lines 32-69), fuel-indexed for totality. The OS oracle maps
the current buffer capacity to the return code of `ptsname_r`: code `0`
is success (the loop returns the name read at the current capacity,
represented here by that capacity), the distinguished range-error code
`ERANGE` grows the capacity exponentially and retries, and any other
code ends the loop as that error. `none` marks exhausted fuel. -/
def ptsnameLoop (os : Nat → Nat) : Nat → Nat → Option (Except Errno Nat)
  | 0, _ => none
  | fuel + 1, cap =>
    if os cap = 0 then
      some (.ok cap)
    else if os cap ≠ Errno.ERANGE.code then
      some (.error ⟨os cap⟩)
    else
      ptsnameLoop os fuel (2 * cap)

/-- A Rust `Vec` abstracted to its logical length and capacity
(`len ≤ cap` is the `Vec` invariant, carried as a hypothesis). -/
structure RustVec where
  len : Nat
  cap : Nat
deriving DecidableEq

/-- Embedding of `port_getn` (src/backend/libc/event/syscalls.rs lines
125-148). The source passes `events.len()` (converted to `u32` by a
`try_into().unwrap()`, modelled by the `2 ^ 32` guard; `none` is the
panic) as the list size and `nget` as the desired count; the OS oracle
maps (list size, desired count) to the translated outcome carrying the
delivered count. On success the vector length is set to the delivered
count; on error the `?` operator returns before `set_len`, leaving the
vector unchanged. -/
def port_getn (events : RustVec) (ngetIn : Nat)
    (os : Nat → Nat → Except Errno Nat) : Option (Except Errno Unit × RustVec) :=
  if events.len < 2 ^ 32 then
    match os events.len ngetIn with
    | .error e => some (.error e, events)
    | .ok ngetOut => some (.ok (), { events with len := ngetOut })
  else
    none

/-- Embedding of `close` (src/backend/libc/io/syscalls.rs lines
230-232): issue the OS release call once with the given descriptor and
discard its raw return (`let _ = c::close(..)`). The first component is
the list of descriptors passed to the OS (the call trace); the second is
the value returned to the caller, of type `Unit` — no error channel. -/
def close (rawFd : Int) (os : Int → Int) : List Int × Unit :=
  let _r := os rawFd
  ([rawFd], ())

/-- Flags argument of the dup-with-flags operation (`DupFlags`):
whether close-on-exec is requested for the duplicate. -/
structure DupFlags where
  cloexec : Bool
deriving DecidableEq

/-- Observable state of a descriptor: which resource it names and its
close-on-exec property. -/
structure FdState where
  resource : Int
  cloexec : Bool
deriving DecidableEq

/-- State of the destination descriptor after the `dup2` OS call (POSIX
contract of the OS boundary: the duplicate names the same resource as
the source and has close-on-exec off). This is the sole call issued by
the source `dup2` wrapper (src/backend/libc/io/syscalls.rs lines
323-326). -/
def dup2Dest (src : FdState) : FdState :=
  { resource := src.resource, cloexec := false }

/-- State of the destination descriptor after the native `dup3` OS
call, following the words of the spec for the dup-with-flags operation:
plain duplication plus applying the requested flags. Named as the
spec-side definition for the refinement claim. -/
def dup3NativeSpec (src : FdState) (flags : DupFlags) : FdState :=
  { resource := src.resource, cloexec := flags.cloexec }

/-- Embedding of the emulated `dup3` (src/backend/libc/io/syscalls.rs
lines 354-360, the platforms without native `dup3`): the body is
exactly `dup2(fd, new)` and the `_flags` argument is not used. -/
def dup3Emulated (src : FdState) (_flags : DupFlags) : FdState :=
  dup2Dest src

/-- Modelled from the spec: the counter-object maximum (a 64-bit
saturating counter; the largest storable value per the eventfd
contract). The kernel counter semantics is not code under `src/`. -/
def eventfdMax : Nat := 2 ^ 64 - 2

/-- Modelled from the spec: a write adds its 8-byte value to the
counter, blocking if the addition would overflow the maximum (`none`
models blocking; the successful case returns the new counter). -/
def eventfdWrite (counter v : Nat) : Option Nat :=
  if counter + v ≤ eventfdMax then some (counter + v) else none

/-- Modelled from the spec: a default-mode read returns the full
counter value and resets it to zero, blocking while the counter is zero
(`none` models blocking). Returns (value read, new counter). -/
def eventfdReadDefault (counter : Nat) : Option (Nat × Nat) :=
  if counter = 0 then none else some (counter, 0)

/-- The sequence of independent 8-byte writes performed by the
`test_eventfd` test (src/tests/event/eventfd.rs): fold each write over
the counter, in order. -/
def eventfdWriteSeq (counter : Nat) (vs : List Nat) : Option Nat :=
  vs.foldlM eventfdWrite counter

/-- Constant `READ_LIMIT` (src/backend/libc/io/syscalls.rs lines 225-228):
`ssize_t::MAX` on most platforms (64-bit model), `c_int::MAX - 1` on
macOS. -/
def READ_LIMIT (macos : Bool) : Nat :=
  if macos then 2 ^ 31 - 1 - 1 else 2 ^ 63 - 1

/-- Outcome of `read`/`write`: the byte count passed to the OS call and
the translated result. -/
structure IoOutcome where
  count : Nat
  result : Except Errno Nat
deriving DecidableEq

/-- Embedding of `read` (src/backend/libc/io/syscalls.rs lines 23-31):
pass `min(buf.len(), READ_LIMIT)` bytes to the OS call and translate
the raw return with `ret_usize`. The OS oracle maps the requested count
to the raw return. -/
def read (macos : Bool) (bufLen : Nat) (os : Nat → Int) : IoOutcome :=
  let c := min bufLen (READ_LIMIT macos)
  { count := c, result := ret_usize (os c) }

/-- Embedding of `write` (src/backend/libc/io/syscalls.rs lines 33-41):
identical shape to `read`. -/
def write (macos : Bool) (bufLen : Nat) (os : Nat → Int) : IoOutcome :=
  let c := min bufLen (READ_LIMIT macos)
  { count := c, result := ret_usize (os c) }

/-- The Rust cast `offset as i64` applied to a `u64` value: the value
modulo `2 ^ 64` reinterpreted as a signed 64-bit two-complement
integer. -/
def u64AsI64 (x : Nat) : Int :=
  if x % 2 ^ 64 < 2 ^ 63 then (x % 2 ^ 64 : Nat) else (x % 2 ^ 64 : Nat) - 2 ^ 64

/-- Outcome of `pread`/`pwrite`: the byte count and signed offset
passed to the OS call, and the translated result. -/
structure PIoOutcome where
  count : Nat
  offset : Int
  result : Except Errno Nat
deriving DecidableEq

/-- Embedding of `pread` (src/backend/libc/io/syscalls.rs lines 43-57):
cap the length at `READ_LIMIT`, silently cast the unsigned offset to a
signed 64-bit value, issue the OS call, translate with `ret_usize`. No
check of the offset is made locally. -/
def pread (macos : Bool) (bufLen : Nat) (offset : Nat)
    (os : Nat → Int → Int) : PIoOutcome :=
  let len := min bufLen (READ_LIMIT macos)
  let off := u64AsI64 offset
  { count := len, offset := off, result := ret_usize (os len off) }

/-- Embedding of `pwrite` (src/backend/libc/io/syscalls.rs lines
59-66): same shape as `pread`. -/
def pwrite (macos : Bool) (bufLen : Nat) (offset : Nat)
    (os : Nat → Int → Int) : PIoOutcome :=
  let len := min bufLen (READ_LIMIT macos)
  let off := u64AsI64 offset
  { count := len, offset := off, result := ret_usize (os len off) }

/-- Claim C2: for every raw OS return encoding fed to the Outcome
Translation Layer (the `ret`/`ret_c_int`/`ret_usize`/`ret_owned_fd`
family): if the input is negative the result is an error whose code
equals the encoded magnitude of the input and is never zero; if the
input is non-negative (including exactly zero) the result is success
carrying that value reinterpreted at the target width. -/
theorem ret_family_translation (raw : Int) :
    (raw < 0 →
      ret raw = .error ⟨(-raw).toNat⟩ ∧
      ret_c_int raw = .error ⟨(-raw).toNat⟩ ∧
      ret_usize raw = .error ⟨(-raw).toNat⟩ ∧
      ret_owned_fd raw = .error ⟨(-raw).toNat⟩ ∧
      (-raw).toNat ≠ 0) ∧
    (0 ≤ raw →
      ret raw = .ok () ∧
      ret_c_int raw = .ok raw ∧
      ret_usize raw = .ok raw.toNat ∧
      ret_owned_fd raw = .ok ⟨raw⟩) := by
  constructor
  · intro h
    have hz : (-raw).toNat ≠ 0 := by omega
    simp [ret, ret_c_int, ret_usize, ret_owned_fd, rawTranslate, if_pos h,
      Except.map, hz]
  · intro h
    have h2 : ¬ raw < 0 := by omega
    simp [ret, ret_c_int, ret_usize, ret_owned_fd, rawTranslate, if_neg h2,
      Except.map]

/-- Witness for C2: concrete evaluations at raw inputs -5, 0 and 7. -/
theorem ret_family_translation_witness :
    ret_c_int (-5) = .error ⟨5⟩ ∧ ret_c_int 0 = .ok 0 ∧ ret_usize 7 = .ok 7 ∧
    ret_owned_fd 3 = .ok ⟨3⟩ := by
  refine ⟨?_, ?_, ?_, ?_⟩
  · exact ((ret_family_translation (-5)).1 (by decide)).2.1
  · exact ((ret_family_translation 0).2 (by decide)).2.1
  · exact ((ret_family_translation 7).2 (by decide)).2.2.1
  · exact ((ret_family_translation 3).2 (by decide)).2.2.2

/-- Claim C6: the release operation used on handle destruction issues
the underlying release call exactly once (the call trace is the
one-element list holding the given descriptor), returns no value (type
`Unit`, no error channel), and its observable output is independent of
the outcome the OS reports for the release call. -/
theorem close_discards_outcome (rawFd : Int) (os osB : Int → Int) :
    (close rawFd os).1 = [rawFd] ∧
    (close rawFd os).2 = () ∧
    close rawFd os = close rawFd osB :=
  ⟨rfl, rfl, rfl⟩

/-- Claim C8: from a counter created at 0, the writes 1, 3, 6, 11, 5000
(each adding its value to the counter) followed by one default-mode
read yield the value 5021 and reset the counter to zero. -/
theorem eventfd_roundtrip_5021 :
    eventfdWriteSeq 0 [1, 3, 6, 11, 5000] = some 5021 ∧
    eventfdReadDefault 5021 = some (5021, 0) := by
  constructor
  · decide
  · decide

/-- Claim C9: `read` and `write` pass `min(buffer length, READ_LIMIT)`
bytes to the OS call, where `READ_LIMIT` is `ssize_t::MAX` (`2^63 - 1`
in the 64-bit model) or `c_int::MAX - 1` on macOS; the count never
exceeds `READ_LIMIT`, and an over-large buffer is silently capped: the
result is always the translation of the OS return at the capped count,
never a locally synthesized error. -/
theorem read_write_cap_at_limit (macos : Bool) (bufLen : Nat) (os : Nat → Int) :
    (read macos bufLen os).count = min bufLen (READ_LIMIT macos) ∧
    (write macos bufLen os).count = min bufLen (READ_LIMIT macos) ∧
    (read macos bufLen os).count ≤ READ_LIMIT macos ∧
    (write macos bufLen os).count ≤ READ_LIMIT macos ∧
    (read macos bufLen os).result = ret_usize (os (min bufLen (READ_LIMIT macos))) ∧
    (write macos bufLen os).result = ret_usize (os (min bufLen (READ_LIMIT macos))) ∧
    READ_LIMIT macos = (if macos then 2 ^ 31 - 2 else 2 ^ 63 - 1) ∧
    (∀ r : Int, 0 ≤ r → os (min bufLen (READ_LIMIT macos)) = r →
      (read macos bufLen os).result = .ok r.toNat) := by
  refine ⟨rfl, rfl, Nat.min_le_right _ _, Nat.min_le_right _ _, rfl, rfl, ?_, ?_⟩
  · cases macos <;> rfl
  · intro r hr hos
    simp only [read, ret_usize, rawTranslate, hos, if_neg (by omega : ¬ r < 0),
      Except.map]

/-- Witness for C9: a buffer longer than the non-macOS `READ_LIMIT` is
capped at exactly `READ_LIMIT`, and an OS return of 42 at the capped
count is surfaced as success 42. -/
theorem read_write_cap_at_limit_witness :
    (read false (2 ^ 63 + 5) (fun _ => 42)).count = 2 ^ 63 - 1 ∧
    (read false (2 ^ 63 + 5) (fun _ => 42)).result = .ok 42 := by
  have h := read_write_cap_at_limit false (2 ^ 63 + 5) (fun _ => 42)
  refine ⟨?_, ?_⟩
  · rw [h.1]
    decide
  · exact h.2.2.2.2.2.2.2 42 (by decide) rfl

/-- Claim C10: `pread` and `pwrite` reinterpret the unsigned 64-bit
offset as a signed 64-bit value (the value modulo `2^64` read as two-s
complement) before passing it to the OS; for every offset greater than
`i64::MAX` the OS receives a negative offset; no local check is made:
the result is always the translation of the OS return. -/
theorem pread_pwrite_offset_cast (macos : Bool) (bufLen offset : Nat)
    (os : Nat → Int → Int) (h64 : offset < 2 ^ 64) :
    (pread macos bufLen offset os).offset = u64AsI64 offset ∧
    (pwrite macos bufLen offset os).offset = u64AsI64 offset ∧
    u64AsI64 offset % 2 ^ 64 = (offset : Int) % 2 ^ 64 ∧
    -(2 ^ 63) ≤ u64AsI64 offset ∧ u64AsI64 offset < 2 ^ 63 ∧
    (2 ^ 63 - 1 < offset → u64AsI64 offset < 0) ∧
    (offset < 2 ^ 63 → u64AsI64 offset = offset) ∧
    (pread macos bufLen offset os).result =
      ret_usize (os (min bufLen (READ_LIMIT macos)) (u64AsI64 offset)) ∧
    (pwrite macos bufLen offset os).result =
      ret_usize (os (min bufLen (READ_LIMIT macos)) (u64AsI64 offset)) := by
  have hmod : offset % 2 ^ 64 = offset := Nat.mod_eq_of_lt h64
  refine ⟨rfl, rfl, ?_, ?_, ?_, ?_, ?_, rfl, rfl⟩ <;>
    simp only [u64AsI64, hmod] <;> split <;> push_cast <;> omega

/-- Witness for C10: the offset `2^63` (one past `i64::MAX`) reaches
the OS as the negative value `-(2^63)`. -/
theorem pread_pwrite_offset_cast_witness :
    (pread false 16 (2 ^ 63) (fun _ _ => 0)).offset = u64AsI64 (2 ^ 63) ∧
    u64AsI64 (2 ^ 63) < 0 := by
  have h := pread_pwrite_offset_cast false 16 (2 ^ 63) (fun _ _ => 0) (by norm_num)
  exact ⟨h.1, h.2.2.2.2.2.1 (by norm_num)⟩

/-- Counterexample to C1 as stated: at slice length `2^31` (not
representable in the native C `int`), `poll` synthesizes the
invalid-argument error `Errno::INVAL`, not an overflow error — the code
chooses a different error code for `poll` than for `kevent`. No OS call
is issued. -/
theorem poll_overflow_is_inval :
    (poll (2 ^ 31) 0 (fun _ _ => 0)).result = .error Errno.INVAL ∧
    Errno.INVAL ≠ Errno.OVERFLOW ∧
    (poll (2 ^ 31) 0 (fun _ _ => 0)).osNfds = none := by
  decide

/-- Claim C1 (amended): when a slice length cannot be represented in
the native C `int` width, the wrapper returns a locally synthesized
error without issuing the OS call — `Errno::OVERFLOW` for either
`kevent` slice, but `Errno::INVAL` for the `poll` entries slice — and a
representable length is always passed to the OS exactly, never
truncated or wrapped. -/
theorem multiplexer_length_errors (nfds nchanges nevents : Nat) (t : Int)
    (osPoll : Nat → Int → Int) (osKev : Nat → Nat → Int)
    (hn : cIntMax < nfds) (hk : cIntMax < nchanges ∨ cIntMax < nevents) :
    poll nfds t osPoll = { result := .error Errno.INVAL, osNfds := none } ∧
    kevent nchanges nevents osKev =
      { result := .error Errno.OVERFLOW, osLens := none } ∧
    (∀ m timeout, m ≤ cIntMax → (poll m timeout osPoll).osNfds = some m) ∧
    (∀ a b, a ≤ cIntMax → b ≤ cIntMax → (kevent a b osKev).osLens = some (a, b)) := by
  refine ⟨?_, ?_, ?_, ?_⟩
  · have h1 : ¬ nfds ≤ cIntMax := by omega
    simp [poll, h1]
  · rcases hk with hk | hk
    · have h1 : ¬ nchanges ≤ cIntMax := by omega
      simp [kevent, h1]
    · by_cases hc : nchanges ≤ cIntMax
      · have h1 : ¬ nevents ≤ cIntMax := by omega
        simp [kevent, hc, h1]
      · simp [kevent, hc]
  · intro m timeout hm
    simp [poll, hm]
  · intro a b ha hb
    simp [kevent, ha, hb]

/-- Witness for C1 (amended): concrete over-wide and in-range lengths. -/
theorem multiplexer_length_errors_witness :
    poll (2 ^ 31) (-1) (fun _ _ => 0) =
      { result := .error Errno.INVAL, osNfds := none } ∧
    kevent (2 ^ 31) 4 (fun _ _ => 0) =
      { result := .error Errno.OVERFLOW, osLens := none } ∧
    (poll 3 (-1) (fun _ _ => 0)).osNfds = some 3 := by
  have h := multiplexer_length_errors (2 ^ 31) (2 ^ 31) 4 (-1)
    (fun _ _ => 0) (fun _ _ => 0) (by decide) (Or.inl (by decide))
  exact ⟨h.1, h.2.1, h.2.2.1 3 (-1) (by decide)⟩

/-- Counterexample to C7 as stated: with close-on-exec requested, the
emulated `dup3` (which ignores its flags argument and performs a plain
`dup2`) leaves the close-on-exec property off, while the native
dup-with-flags operation sets it: the observable results differ. -/
theorem dup3_emulation_drops_flags :
    dup3Emulated ⟨5, false⟩ ⟨true⟩ ≠ dup3NativeSpec ⟨5, false⟩ ⟨true⟩ := by
  decide

/-- Claim C7 (amended): on platforms without a native `dup3`, the
emulated `dup3` is exactly a plain `dup2` duplication with the flags
argument discarded; it is behaviorally equivalent to the native
dup-with-flags operation precisely when no close-on-exec flag is
requested, and with the flag requested it duplicates the resource
correctly but drops the requested property. -/
theorem dup3_emulation_is_dup2 (src : FdState) (flags : DupFlags) :
    dup3Emulated src flags = dup2Dest src ∧
    (flags.cloexec = false → dup3Emulated src flags = dup3NativeSpec src flags) ∧
    (flags.cloexec = true →
      (dup3Emulated src flags).resource = (dup3NativeSpec src flags).resource ∧
      dup3Emulated src flags ≠ dup3NativeSpec src flags) := by
  refine ⟨rfl, ?_, ?_⟩
  · intro h
    simp [dup3Emulated, dup2Dest, dup3NativeSpec, h]
  · intro h
    refine ⟨rfl, ?_⟩
    simp [dup3Emulated, dup2Dest, dup3NativeSpec, h]

/-- Witness for C7 (amended): with no flags the emulation agrees with
the native operation at a concrete descriptor state. -/
theorem dup3_emulation_is_dup2_witness :
    dup3Emulated ⟨5, true⟩ ⟨false⟩ = dup3NativeSpec ⟨5, true⟩ ⟨false⟩ ∧
    dup3Emulated ⟨5, true⟩ ⟨true⟩ ≠ dup3NativeSpec ⟨5, true⟩ ⟨true⟩ := by
  exact ⟨(dup3_emulation_is_dup2 ⟨5, true⟩ ⟨false⟩).2.1 rfl,
    ((dup3_emulation_is_dup2 ⟨5, true⟩ ⟨true⟩).2.2 rfl).2⟩

/-- Helper for C4: with an oracle that always reports the range error,
the pty-name loop never terminates, whatever the fuel — there is no
fixed upper bound on the number of retries. -/
theorem ptsnameLoop_erange_forever :
    ∀ fuel cap, ptsnameLoop (fun _ => Errno.ERANGE.code) fuel cap = none := by
  intro fuel
  induction fuel with
  | zero => intro cap; rfl
  | succ f ih =>
    intro cap
    simp only [ptsnameLoop]
    rw [if_neg (by decide), if_neg (by decide)]
    exact ih (2 * cap)

/-- Claim C4: in the `ptsname` growable-buffer loop, a return code of
zero ends the loop with success; the distinguished range-error code
`ERANGE` causes a capacity doubling and retry, with no fixed upper
bound on retries (an oracle answering `ERANGE` forever never yields a
result at any fuel); and every other nonzero code terminates the loop
immediately as that error. -/
theorem ptsname_loop_contract (os : Nat → Nat) (cap fuel : Nat) :
    (os cap = 0 → ptsnameLoop os (fuel + 1) cap = some (.ok cap)) ∧
    (os cap = Errno.ERANGE.code →
      ptsnameLoop os (fuel + 1) cap = ptsnameLoop os fuel (2 * cap)) ∧
    (os cap ≠ 0 → os cap ≠ Errno.ERANGE.code →
      ptsnameLoop os (fuel + 1) cap = some (.error ⟨os cap⟩)) ∧
    (∀ f c, ptsnameLoop (fun _ => Errno.ERANGE.code) f c = none) := by
  refine ⟨?_, ?_, ?_, ptsnameLoop_erange_forever⟩
  · intro h
    simp [ptsnameLoop, h]
  · intro h
    simp [ptsnameLoop, h, Errno.ERANGE]
  · intro hz hr
    simp [ptsnameLoop, hz, hr]

/-- Witness for C4: concrete oracles exercising the success, retry and
terminal-error exits of the loop. -/
theorem ptsname_loop_contract_witness :
    ptsnameLoop (fun _ => 0) 1 16 = some (.ok 16) ∧
    ptsnameLoop (fun _ => 13) 1 16 = some (.error ⟨13⟩) ∧
    ptsnameLoop (fun _ => 34) 1 16 = ptsnameLoop (fun _ => 34) 0 32 := by
  refine ⟨(ptsname_loop_contract (fun _ => 0) 16 0).1 rfl, ?_, ?_⟩
  · exact (ptsname_loop_contract (fun _ => 13) 16 0).2.2.1 (by decide) (by decide)
  · exact (ptsname_loop_contract (fun _ => 34) 16 0).2.1 rfl

/-- Claim C5: for `port_getn` over a vector satisfying the `Vec`
invariant, with an OS oracle that never delivers more events than the
list size it is given nor more than the desired count: on success the
vector length afterwards equals the delivered count, which is at most
the requested maximum and at most the vector capacity; on error the
vector is unchanged. -/
theorem port_getn_length (events : RustVec) (ngetIn : Nat)
    (os : Nat → Nat → Except Errno Nat)
    (hinv : events.len ≤ events.cap)
    (hlen : events.len < 2 ^ 32)
    (hos : ∀ m n r, os m n = .ok r → r ≤ m ∧ r ≤ n) :
    (∀ v, port_getn events ngetIn os = some (.ok (), v) →
      v.cap = events.cap ∧ v.len ≤ ngetIn ∧ v.len ≤ v.cap ∧
      os events.len ngetIn = .ok v.len) ∧
    (∀ e v, port_getn events ngetIn os = some (.error e, v) → v = events) := by
  constructor
  · intro v hv
    rw [port_getn, if_pos hlen] at hv
    cases hr : os events.len ngetIn with
    | error e =>
      rw [hr] at hv
      simp at hv
    | ok r =>
      rw [hr] at hv
      have hbound := hos events.len ngetIn r hr
      simp only [Option.some.injEq, Prod.mk.injEq] at hv
      have hveq : v = { events with len := r } := hv.2.symm
      subst hveq
      exact ⟨rfl, hbound.2, le_trans hbound.1 hinv, rfl⟩
  · intro e v hv
    rw [port_getn, if_pos hlen] at hv
    cases hr : os events.len ngetIn with
    | error eB =>
      rw [hr] at hv
      simp only [Option.some.injEq, Prod.mk.injEq, Except.error.injEq] at hv
      exact hv.2.symm
    | ok r =>
      rw [hr] at hv
      simp at hv

/-- Witness for C5: a vector of length 4 and capacity 8, requesting at
most 3 events from an oracle delivering `min(list size, desired)`,
ends with length 3, within both bounds. -/
theorem port_getn_length_witness :
    RustVec.len ⟨3, 8⟩ ≤ 3 ∧ RustVec.len ⟨3, 8⟩ ≤ RustVec.cap ⟨3, 8⟩ := by
  have h := (port_getn_length ⟨4, 8⟩ 3 (fun m n => .ok (min m n)) (by decide)
    (by decide) (fun m n r hr => by
      injection hr with hr
      omega)).1 ⟨3, 8⟩ (by decide)
  exact ⟨h.2.1, h.2.2.1⟩

/-- Helper for C3: with positive capacity and enough fuel the readlink
retry loop terminates. -/
theorem readlinkatAux_isSome (tgt : List Byte) :
    ∀ fuel cap, 1 ≤ fuel → 0 < cap → tgt.length + 2 ≤ cap + fuel →
      (readlinkatAux tgt fuel cap).isSome := by
  intro fuel
  induction fuel with
  | zero =>
    intro cap h1 _ _
    omega
  | succ f ih =>
    intro cap _ hcap hfuel
    simp only [readlinkatAux]
    by_cases h : min tgt.length cap < cap
    · simp [h]
    · have hle : cap ≤ tgt.length := by omega
      have h1 : 1 ≤ f := by omega
      have hnext := ih (2 * cap) h1 (by omega) (by omega)
      rw [if_neg h]
      obtain ⟨p, hp⟩ := Option.isSome_iff_exists.mp hnext
      simp [hp]

/-- Helper for C3: on termination the loop returns exactly the target
bytes, and the retry count `k` is characterized by the sandwich
`cap * 2 ^ j ≤ L` for every `j < k` and `L < cap * 2 ^ k`. -/
theorem readlinkatAux_spec (tgt : List Byte) :
    ∀ fuel cap k bs, 0 < cap → readlinkatAux tgt fuel cap = some (k, bs) →
      bs = tgt ∧ tgt.length < cap * 2 ^ k ∧
        ∀ j, j < k → cap * 2 ^ j ≤ tgt.length := by
  intro fuel
  induction fuel with
  | zero =>
    intro cap k bs _ h
    simp [readlinkatAux] at h
  | succ f ih =>
    intro cap k bs hcap h
    simp only [readlinkatAux] at h
    by_cases hlt : min tgt.length cap < cap
    · rw [if_pos hlt] at h
      have hL : tgt.length < cap := by omega
      have hmin : min tgt.length cap = tgt.length := by omega
      rw [hmin] at h
      simp only [Option.some.injEq, Prod.mk.injEq] at h
      obtain ⟨hk, hbs⟩ := h
      subst hk
      refine ⟨?_, by simpa using hL, ?_⟩
      · rw [← hbs, List.take_take, hmin, List.take_length]
      · intro j hj
        exact absurd hj (Nat.not_lt_zero j)
    · rw [if_neg hlt] at h
      have hle : cap ≤ tgt.length := by omega
      obtain ⟨⟨k0, bs0⟩, hrec, heq⟩ := Option.map_eq_some'.mp h
      simp only [Prod.mk.injEq] at heq
      obtain ⟨hk, hbs⟩ := heq
      subst hk
      subst hbs
      obtain ⟨hA, hB, hC⟩ := ih (2 * cap) k0 bs0 (by omega) hrec
      refine ⟨hA, ?_, ?_⟩
      · have hpow : cap * 2 ^ (k0 + 1) = 2 * cap * 2 ^ k0 := by ring
        rw [hpow]
        exact hB
      · intro j hj
        cases j with
        | zero => simpa using hle
        | succ j0 =>
          have hpow : cap * 2 ^ (j0 + 1) = 2 * cap * 2 ^ j0 := by ring
          rw [hpow]
          exact hC j0 (by omega)

/-- Claim C3 (amended): resolving a target of length `L` from an
initial capacity `0 < C < L` terminates after exactly
`Nat.log 2 (L / C) + 1` capacity-growth retries — capacity doubling
each retry — which equals the ceiling of log2 of `L / C` except when
`L` is exactly `C` times a power of two, where it is one greater; the
returned content is exactly the `L` target bytes with no truncation and
no extra terminator byte; and one iteration of the loop exits precisely
when the OS-reported length is strictly less than the current
capacity. -/
theorem readlinkat_growth (tgt : List Byte) (C : Nat) (hC : 0 < C)
    (hCL : C < tgt.length) :
    readlinkat tgt C = some (Nat.log 2 (tgt.length / C) + 1, tgt) ∧
    (∀ cap, (readlinkatAux tgt 1 cap).isSome ↔ min tgt.length cap < cap) := by
  constructor
  · have hsome := readlinkatAux_isSome tgt (tgt.length + 1) C (by omega) hC (by omega)
    obtain ⟨⟨k, bs⟩, hp⟩ := Option.isSome_iff_exists.mp hsome
    obtain ⟨hbs, hup, hlow⟩ := readlinkatAux_spec tgt (tgt.length + 1) C k bs hC hp
    rw [hbs] at hp
    have hk1 : 1 ≤ k := by
      by_contra hcon
      have hk0 : k = 0 := by omega
      rw [hk0] at hup
      simp at hup
      omega
    have hlo : C * 2 ^ (k - 1) ≤ tgt.length := hlow (k - 1) (by omega)
    have hdiv1 : 2 ^ (k - 1) ≤ tgt.length / C := by
      rw [Nat.le_div_iff_mul_le hC]
      calc 2 ^ (k - 1) * C = C * 2 ^ (k - 1) := by ring
        _ ≤ tgt.length := hlo
    have hdiv2 : tgt.length / C < 2 ^ (k - 1 + 1) := by
      rw [Nat.div_lt_iff_lt_mul hC]
      calc tgt.length < C * 2 ^ k := hup
        _ = 2 ^ (k - 1 + 1) * C := by
            rw [show k - 1 + 1 = k from by omega]
            ring
    have hlog := Nat.log_eq_of_pow_le_of_lt_pow hdiv1 hdiv2
    rw [hlog, show k - 1 + 1 = k from by omega]
    exact hp
  · intro cap
    by_cases h : min tgt.length cap < cap
    · simp [readlinkatAux, h]
    · simp [readlinkatAux, h]

/-- Witness for C3 (amended): a 3-byte target from capacity 1 takes
exactly `Nat.log 2 3 + 1 = 2` growth retries and returns the target. -/
theorem readlinkat_growth_witness :
    readlinkat [7, 9, 9] 1 = some (2, [7, 9, 9]) := by
  have hlog : Nat.log 2 (List.length [7, 9, 9] / 1) = 1 :=
    Nat.log_eq_of_pow_le_of_lt_pow (by decide) (by decide)
  have h := (readlinkat_growth [7, 9, 9] 1 (by decide) (by decide)).1
  rw [hlog] at h
  exact h

/-- Counterexample to C3 as stated: for a 2-byte target from capacity
1 the ratio is exactly a power of two, the ceiling of log2 of the ratio
is 1, yet the loop performs 2 growth retries: a report equal to the
capacity does not satisfy the strict exit test and forces one more
growth. -/
theorem readlinkat_growth_ceil_fails :
    readlinkat [7, 9] 1 = some (2, [7, 9]) ∧
    Nat.clog 2 (List.length [7, 9] / 1) = 1 ∧ (2 : Nat) ≠ 1 := by
  refine ⟨by decide, ?_, by decide⟩
  show Nat.clog 2 2 = 1
  have h1 : Nat.clog 2 2 ≤ 1 := (Nat.le_pow_iff_clog_le (by norm_num)).mp (by norm_num)
  have h2 : 0 < Nat.clog 2 2 := (Nat.pow_lt_iff_lt_clog (by norm_num)).mp (by norm_num)
  omega

end Rustix
